import Mathlib

/-!
Verification of the three-stage incremental news pipeline implemented in
`src/newsapi_dentsu/defs/assets.py`.

The embedding is row-level: a pandas `DataFrame` is a list of rows together
with flags recording which of the optional columns (`body`, `description`,
`publishedAt`) are present; the columns `url` and `title` are part of the
canonical schema and always present. A missing (NaN) cell is `Option.none`.
`pd.drop_duplicates(subset=["url"], keep="first")` keeps the first row of
each url class, and treats missing (NaN) keys as equal to each other, so all
null-url rows form one class; the model mirrors that.
-/

namespace NewsPipeline

/-- A cell of the `publishedAt` column before normalisation:
missing (NaN), present but unparseable by `pd.to_datetime`, or a
timestamp. `pd.to_datetime(errors="coerce")` maps the first two to `NaT`. -/
inductive DateVal where
  | missing : DateVal
  | invalid : DateVal
  | ts : Nat → DateVal
deriving DecidableEq, Repr

/-- One row of the canonical article frame (`assets.py` schema). Fields the
claims never inspect (`article_id`, `source_name`, `source_uri`,
`fetched_at`) are carried by `extra` so that rows keep their identity. -/
structure Row where
  url : Option String
  title : Option String
  body : Option String
  descr : Option String
  publishedAt : DateVal
  extra : String := ""
deriving DecidableEq, Repr

/-- A pandas DataFrame of article rows: the rows plus which optional columns
exist. A row field whose column flag is `false` is not real data (pandas has
no cell there); `DF.concat` below nulls such fields, as `pd.concat` does. -/
structure DF where
  hasBody : Bool
  hasDescription : Bool
  hasPublishedAt : Bool
  rows : List Row
deriving DecidableEq, Repr

/-- `drop_duplicates(subset=["url"], keep="first")`, written with an
explicit accumulator of already-seen url keys. pandas hashes NaN keys like
any other value, so `none` collides with `none`. -/
def dedupByUrlAux (seen : List (Option String)) : List Row → List Row
  | [] => []
  | r :: rs =>
    if r.url ∈ seen then dedupByUrlAux seen rs
    else r :: dedupByUrlAux (r.url :: seen) rs

def dedupByUrl (l : List Row) : List Row := dedupByUrlAux [] l

/-- Result of one execution of the `processed_news` stage: the returned
batch together with whether the stage reached the code that loads the
previously persisted `raw.processed_news` table. -/
structure ProcRun where
  output : List Row
  readsExisting : Bool
deriving DecidableEq, Repr

/-- `processed_news` from `assets.py` (lines 146-230). `existing` is the
content of the persisted `raw.processed_news` table (empty list when the
table is absent; absence is caught and treated as empty). The empty-input
short circuit returns before the table is read. -/
def processed_news_run (existing batch : List Row) : ProcRun :=
  if batch.isEmpty then ⟨batch, false⟩
  else
    let processed := dedupByUrl batch
    if existing.isEmpty then ⟨processed, true⟩
    else ⟨dedupByUrl (existing ++ processed), true⟩

/-- The DataFrame returned by the `processed_news` stage. -/
def processed_news (existing batch : List Row) : List Row :=
  (processed_news_run existing batch).output

/-! ## The filter stage (`filtered_news`, assets.py lines 240-364) -/

def removedLit : String := "[Removed]"

/-- Elementwise `series != lit` in pandas: a missing cell compares as not
equal, so the condition holds on NaN cells. -/
def optNe (o : Option String) (lit : String) : Bool :=
  match o with
  | none => true
  | some s => s != lit

/-- The whitespace set of Python `str.strip()`. -/
def isStripChar (c : Char) : Bool :=
  c = ' ' || c = '\t' || c = '\n' || c = '\x0d' || c = '\x0b' || c = '\x0c'

/-- Python `str.strip()`: drop leading and trailing whitespace. -/
def strStrip (s : String) : String :=
  ⟨((s.data.dropWhile isStripChar).reverse.dropWhile isStripChar).reverse⟩

/-- Elementwise `series.str.strip().ne("")`: `str.strip` maps NaN to NaN
and NaN is not equal to the empty string, so the condition holds on NaN. -/
def optStripNeBlank (o : Option String) : Bool :=
  match o with
  | none => true
  | some s => strStrip s != ""

/-- The active content cell of a row: `body` when the input frame has a
`body` column, else `description` (assets.py line 291). -/
def contentOf (hasBody : Bool) (r : Row) : Option String :=
  if hasBody then r.body else r.descr

/-- The validity mask of lines 294-303: `title.notna()` always, and the
five content/title literal checks only when the chosen content column is
present in the frame. -/
def filterCond (hasBody hasContentCol : Bool) (r : Row) : Bool :=
  let c := contentOf hasBody r
  if hasContentCol then
    r.title.isSome && c.isSome && optStripNeBlank c
      && optNe r.title removedLit && optStripNeBlank r.title
      && optNe c removedLit
  else r.title.isSome

/-- `pd.to_datetime(errors="coerce")` on one cell: unparseable values and
missing values both become `NaT` (here `missing`). -/
def toDatetimeCoerce (d : DateVal) : DateVal :=
  match d with
  | .ts t => .ts t
  | _ => .missing

/-- The timestamp carried by a row, `none` on `NaT`/missing. -/
def tsOf (r : Row) : Option Nat :=
  match r.publishedAt with
  | .ts t => some t
  | _ => none

/-- Lines 291-313: content-validity mask over the new batch, then the
`publishedAt` coercion and the drop of rows with invalid dates, which run
only when the frame has a `publishedAt` column. -/
def newBatchFiltered (input : DF) : List Row :=
  let hasContentCol := input.hasBody || input.hasDescription
  let filtered := input.rows.filter (filterCond input.hasBody hasContentCol)
  if input.hasPublishedAt then
    (filtered.map
        (fun r => { r with publishedAt := toDatetimeCoerce r.publishedAt })).filter
      (fun r => (tsOf r).isSome)
  else filtered

/-- Restrict a row to the columns its frame actually has: a field whose
column is absent holds no data, and `pd.concat` fills it with NaN/NaT. -/
def normTo (hasBody hasDescr hasPA : Bool) (r : Row) : Row :=
  { r with
    body := if hasBody then r.body else none
    descr := if hasDescr then r.descr else none
    publishedAt := if hasPA then r.publishedAt else .missing }

/-- `pd.concat([a, b], ignore_index=True)`: columns are unioned and rows
from a frame missing a column get null cells for it. -/
def DF.concat (a b : DF) : DF :=
  { hasBody := a.hasBody || b.hasBody
    hasDescription := a.hasDescription || b.hasDescription
    hasPublishedAt := a.hasPublishedAt || b.hasPublishedAt
    rows := a.rows.map (normTo a.hasBody a.hasDescription a.hasPublishedAt)
      ++ b.rows.map (normTo b.hasBody b.hasDescription b.hasPublishedAt) }

/-- The sort key used by `sort_values("publishedAt", ascending=False)` for
rows that carry a real timestamp. -/
def paKey (r : Row) : Nat :=
  match r.publishedAt with
  | .ts t => t
  | _ => 0

/-- `sort_values("publishedAt", ascending=False)`: rows with a timestamp
in non-increasing key order first, rows with `NaT` last (the pandas
default `na_position="last"`). pandas uses an unstable quicksort, so the
order among equal keys and among the `NaT` rows is unspecified; the model
fixes one such permutation, and no claim depends on tie order. -/
def sortRowsDesc (l : List Row) : List Row :=
  List.insertionSort (fun a b => paKey b ≤ paKey a)
      (l.filter (fun r => (tsOf r).isSome))
    ++ l.filter (fun r => !(tsOf r).isSome)

/-- `filtered_news` from `assets.py` (lines 240-364). `existing` is the
persisted `raw.filtered_news` table as a frame (rows empty when absent;
absence is caught and treated as empty). The merge with the persisted
frame happens only when that frame is non-empty, and the final sort runs
only when the resulting frame has a `publishedAt` column. -/
def filtered_news (existing input : DF) : DF :=
  if input.rows.isEmpty then input
  else
    let filteredDF : DF := { input with rows := newBatchFiltered input }
    let final :=
      if existing.rows.isEmpty then filteredDF
      else
        let combined := DF.concat existing filteredDF
        { combined with rows := dedupByUrl combined.rows }
    if final.hasPublishedAt then { final with rows := sortRowsDesc final.rows }
    else final

/-- The sequence of `published_at` values of a frame, in row order: cells
exist only when the column does, and null cells carry no value. -/
def DF.paSeq (df : DF) : List Nat :=
  if df.hasPublishedAt then df.rows.filterMap tsOf else []

/-- Modelled from the words of the validity predicate in the spec
(sections 3 and 8): title and the active content field non-null,
non-blank and not the sentinel, and `published_at` non-null. Used only to
compare the filter output against the spec; the code is `filterCond`. -/
def spec_valid (hasBody : Bool) (r : Row) : Bool :=
  (match r.title with
    | some t => strStrip t != "" && t != removedLit
    | none => false)
  && (match contentOf hasBody r with
    | some c => strStrip c != "" && c != removedLit
    | none => false)
  && (match r.publishedAt with
    | .ts _ => true
    | _ => false)

/-! ## The incremental cursor resolver (`get_last_fetch_timestamp`,
assets.py lines 13-42). Dates are modelled as days since 1970-01-01 and
converted to a civil date with the standard era-based algorithm; the
Python code converts Unix timestamps with the process timezone, which the
model takes to be UTC (consistent with the repository tests). -/

/-- Convert a count of days since 1970-01-01 to a civil (year, month, day)
triple. Standard civil-from-days computation over one 400-year era. -/
def civilFromDays (days : Nat) : Nat × Nat × Nat :=
  let z := days + 719468
  let era := z / 146097
  let doe := z % 146097
  let yoe := (doe - doe / 1460 + doe / 36524 - doe / 146097) / 365
  let doy := doe - (365 * yoe + yoe / 4 - yoe / 100)
  let mp := (5 * doy + 2) / 153
  let d := doy - (153 * mp + 2) / 5 + 1
  let m := if mp < 10 then mp + 3 else mp - 9
  let y := yoe + era * 400 + (if m ≤ 2 then 1 else 0)
  (y, m, d)

/-- Zero-pad a month or day number to two digits, as `%m`/`%d` do. -/
def pad2 (n : Nat) : String :=
  if n < 10 then "0" ++ toString n else toString n

/-- `strftime("%Y-%m-%d")` applied to the date that is `days` days after
1970-01-01. -/
def formatDate (days : Nat) : String :=
  let c := civilFromDays days
  toString c.1 ++ "-" ++ pad2 c.2.1 ++ "-" ++ pad2 c.2.2

/-- The recorded `last_fetch_timestamp` metadata of the latest successful
materialization: a datetime (its date given as days since epoch), a raw
numeric seconds-since-epoch value, or a value of any other type. The
surrounding `Option` is `none` when there is no prior materialization or
the metadata key is absent. -/
inductive MetaValue where
  | dt : Nat → MetaValue
  | fl : Nat → MetaValue
  | otherVal : MetaValue
deriving DecidableEq, Repr

/-- `get_last_fetch_timestamp` (assets.py lines 13-42): format a datetime
value directly; convert a float value from seconds since epoch; in every
other case (no prior run, no metadata key, unexpected type) fall back to
today minus 7 days. The function is total: missing history never raises. -/
def get_last_fetch_timestamp (meta : Option MetaValue) (todayDays : Nat) : String :=
  match meta with
  | some (.dt days) => formatDate days
  | some (.fl seconds) => formatDate (seconds / 86400)
  | _ => formatDate (todayDays - 7)

/-! ## The fetch stage (`ai_marketing_news_raw`, assets.py lines 46-134) -/

/-- A raw article dict from the search API. A field is `none` when the key
is absent from the dict. The nested `source` value is a dict, some other
truthy value rendered by `str`, or absent/falsy. -/
inductive SourceVal where
  | obj : Option String → Option String → SourceVal
  | other : String → SourceVal
  | absent : SourceVal
deriving DecidableEq, Repr

structure RawArticle where
  uri : Option String
  url : Option String
  title : Option String
  body : Option String
  dateTime : Option String
  date : Option String
  source : SourceVal
deriving DecidableEq, Repr

/-- A row of the frame returned by the fetch stage after the schema
normalisation of lines 80-105. `publishedAt` holds the raw value handed to
`pd.to_datetime` (parsing is external to the model). -/
structure FetchedRow where
  article_id : Option String
  url : Option String
  title : Option String
  body : Option String
  publishedAt : Option String
  source_name : Option String
  source_uri : Option String
  fetched_at : Nat
deriving DecidableEq, Repr

/-- Lines 80-105 of `assets.py`, with pandas column-level operations made
row-level: a column exists in `pd.DataFrame(articles)` when some article
dict has the key, and the conditional renames test column existence. -/
def normalizeBatch (now : Nat) (articles : List RawArticle) : List FetchedRow :=
  let hasUri := articles.any (fun a => a.uri.isSome)
  let hasUrl := articles.any (fun a => a.url.isSome)
  let hasDateTime := articles.any (fun a => a.dateTime.isSome)
  let hasDate := articles.any (fun a => a.date.isSome)
  articles.map (fun a =>
    { article_id := if hasUri then a.uri else none
      url := if hasUrl then a.url else if hasUri then a.uri else none
      title := a.title
      body := a.body
      publishedAt :=
        if hasDateTime then a.dateTime
        else if hasDate then a.date else none
      source_name :=
        match a.source with
        | .obj t _ => t
        | .other s => some s
        | .absent => none
      source_uri :=
        match a.source with
        | .obj _ u => u
        | _ => none
      fetched_at := now })

/-- `ai_marketing_news_raw` (assets.py lines 46-134). The whole body that
talks to the search API runs inside one `try`; `apiResult` is its outcome:
`ok` with the fetched article dicts, or `error` when the API call raised
(network, auth, quota, anything). The `except` clause logs and returns an
empty DataFrame, so no exception escapes the stage. -/
def ai_marketing_news_raw (apiResult : Except String (List RawArticle))
    (now : Nat) : List FetchedRow :=
  match apiResult with
  | .ok articles => normalizeBatch now articles
  | .error _ => []

/-! ## Lemmas about url deduplication -/

theorem mem_of_mem_dedupByUrlAux {x : Row} {l : List Row} :
    ∀ {seen}, x ∈ dedupByUrlAux seen l → x ∈ l := by
  induction l with
  | nil => intro seen h; simp [dedupByUrlAux] at h
  | cons r rs ih =>
    intro seen h
    by_cases hr : r.url ∈ seen
    · simp only [dedupByUrlAux, if_pos hr] at h
      exact List.mem_cons_of_mem _ (ih h)
    · simp only [dedupByUrlAux, if_neg hr, List.mem_cons] at h
      rcases h with h | h
      · exact h ▸ List.mem_cons_self _ _
      · exact List.mem_cons_of_mem _ (ih h)

theorem url_not_seen_of_mem_dedupByUrlAux {x : Row} {l : List Row} :
    ∀ {seen}, x ∈ dedupByUrlAux seen l → x.url ∉ seen := by
  induction l with
  | nil => intro seen h; simp [dedupByUrlAux] at h
  | cons r rs ih =>
    intro seen h
    by_cases hr : r.url ∈ seen
    · simp only [dedupByUrlAux, if_pos hr] at h
      exact ih h
    · simp only [dedupByUrlAux, if_neg hr, List.mem_cons] at h
      rcases h with h | h
      · exact h ▸ hr
      · intro hx
        exact ih h (List.mem_cons_of_mem _ hx)

theorem nodup_urls_dedupByUrlAux (l : List Row) :
    ∀ seen, ((dedupByUrlAux seen l).map Row.url).Nodup := by
  induction l with
  | nil => intro seen; simp [dedupByUrlAux]
  | cons r rs ih =>
    intro seen
    by_cases hr : r.url ∈ seen
    · simp only [dedupByUrlAux, if_pos hr]
      exact ih seen
    · simp only [dedupByUrlAux, if_neg hr, List.map_cons, List.nodup_cons]
      refine ⟨?_, ih _⟩
      intro hmem
      rcases List.mem_map.mp hmem with ⟨y, hy, hyurl⟩
      apply url_not_seen_of_mem_dedupByUrlAux hy
      rw [hyurl]
      exact List.mem_cons_self _ _

theorem dedupByUrlAux_congr {l : List Row} :
    ∀ {s₁ s₂}, (∀ u, u ∈ s₁ ↔ u ∈ s₂) →
      dedupByUrlAux s₁ l = dedupByUrlAux s₂ l := by
  induction l with
  | nil => intros; rfl
  | cons r rs ih =>
    intro s₁ s₂ hs
    by_cases hr : r.url ∈ s₁
    · simp only [dedupByUrlAux, if_pos hr, if_pos ((hs _).mp hr)]
      exact ih hs
    · simp only [dedupByUrlAux, if_neg hr, if_neg (fun h => hr ((hs _).mpr h))]
      congr 1
      apply ih
      intro u
      simp only [List.mem_cons]
      rw [hs u]

theorem dedupByUrlAux_append (A : List Row) :
    ∀ (B : List Row) (s : List (Option String)),
      dedupByUrlAux s (A ++ B)
        = dedupByUrlAux s A
          ++ dedupByUrlAux ((dedupByUrlAux s A).map Row.url ++ s) B := by
  induction A with
  | nil => intro B s; simp [dedupByUrlAux]
  | cons a A' ih =>
    intro B s
    by_cases ha : a.url ∈ s
    · simp only [List.cons_append, dedupByUrlAux, if_pos ha]
      exact ih B s
    · simp only [List.cons_append, dedupByUrlAux, if_neg ha, List.map_cons,
        List.append_eq]
      rw [ih B (a.url :: s)]
      congr 2
      apply dedupByUrlAux_congr
      intro u
      simp only [List.mem_append, List.mem_cons]
      tauto

theorem dedupByUrlAux_eq_self {l : List Row} :
    ∀ {s}, (∀ x ∈ l, x.url ∉ s) → (l.map Row.url).Nodup →
      dedupByUrlAux s l = l := by
  induction l with
  | nil => intros; rfl
  | cons r rs ih =>
    intro s h1 h2
    simp only [List.map_cons, List.nodup_cons] at h2
    have hr : r.url ∉ s := h1 r (List.mem_cons_self _ _)
    simp only [dedupByUrlAux, if_neg hr]
    congr 1
    apply ih ?_ h2.2
    intro x hx
    simp only [List.mem_cons]
    rintro (h | h)
    · exact h2.1 (h ▸ List.mem_map_of_mem Row.url hx)
    · exact h1 x (List.mem_cons_of_mem _ hx) h

theorem dedupByUrlAux_eq_nil {l : List Row} :
    ∀ {s}, (∀ x ∈ l, x.url ∈ s) → dedupByUrlAux s l = [] := by
  induction l with
  | nil => intros; rfl
  | cons r rs ih =>
    intro s h
    simp only [dedupByUrlAux, if_pos (h r (List.mem_cons_self _ _))]
    exact ih fun x hx => h x (List.mem_cons_of_mem _ hx)

theorem mem_of_mem_dedupByUrl {x : Row} {l : List Row}
    (h : x ∈ dedupByUrl l) : x ∈ l :=
  mem_of_mem_dedupByUrlAux h

theorem nodup_urls_dedupByUrl (l : List Row) :
    ((dedupByUrl l).map Row.url).Nodup :=
  nodup_urls_dedupByUrlAux l []

theorem dedupByUrl_eq_self {l : List Row} (h : (l.map Row.url).Nodup) :
    dedupByUrl l = l :=
  dedupByUrlAux_eq_self (fun x _ hx => by simp at hx) h

theorem dedupByUrl_append (A B : List Row) :
    dedupByUrl (A ++ B)
      = dedupByUrl A
        ++ dedupByUrlAux ((dedupByUrl A).map Row.url) B := by
  unfold dedupByUrl
  rw [dedupByUrlAux_append A B []]
  congr 1
  apply dedupByUrlAux_congr
  intro u
  simp

/-! ## Lemmas about the final sort -/

theorem length_sortRowsDesc (l : List Row) :
    (sortRowsDesc l).length = l.length := by
  unfold sortRowsDesc
  rw [List.length_append, List.length_insertionSort]
  exact (List.length_eq_length_filter_add (fun r => (tsOf r).isSome)).symm

theorem mem_of_mem_sortRowsDesc {x : Row} {l : List Row}
    (h : x ∈ sortRowsDesc l) : x ∈ l := by
  unfold sortRowsDesc at h
  rcases List.mem_append.mp h with h | h
  · exact (List.mem_filter.mp ((List.mem_insertionSort _).mp h)).1
  · exact (List.mem_filter.mp h).1

theorem filterMap_tsOf_eq_map_paKey {l : List Row}
    (h : ∀ r ∈ l, (tsOf r).isSome) : l.filterMap tsOf = l.map paKey := by
  induction l with
  | nil => rfl
  | cons r rs ih =>
    have hr := h r (List.mem_cons_self _ _)
    have hsome : tsOf r = some (paKey r) := by
      cases hpa : r.publishedAt
      · simp [tsOf, hpa] at hr
      · simp [tsOf, hpa] at hr
      · simp [tsOf, paKey, hpa]
    rw [List.filterMap_cons, hsome, List.map_cons,
      ih fun x hx => h x (List.mem_cons_of_mem _ hx)]

theorem sorted_filterMap_sortRowsDesc (l : List Row) :
    List.Sorted (fun a b : Nat => b ≤ a) ((sortRowsDesc l).filterMap tsOf) := by
  unfold sortRowsDesc
  rw [List.filterMap_append]
  have hnil : (l.filter (fun r => !(tsOf r).isSome)).filterMap tsOf = [] := by
    rw [List.filterMap_eq_nil_iff]
    intro a ha
    have h2 := (List.mem_filter.mp ha).2
    simp only [Bool.not_eq_true'] at h2
    cases htsa : tsOf a
    · rfl
    · rw [htsa] at h2
      simp at h2
  rw [hnil, List.append_nil]
  have hdated : ∀ r ∈ List.insertionSort (fun a b => paKey b ≤ paKey a)
      (l.filter (fun r => (tsOf r).isSome)), (tsOf r).isSome := by
    intro r hr
    exact (List.mem_filter.mp ((List.mem_insertionSort _).mp hr)).2
  rw [filterMap_tsOf_eq_map_paKey hdated]
  have hsorted : List.Sorted (fun a b : Row => paKey b ≤ paKey a)
      (List.insertionSort (fun a b => paKey b ≤ paKey a)
        (l.filter (fun r => (tsOf r).isSome))) := by
    haveI : IsTotal Row (fun a b => paKey b ≤ paKey a) :=
      ⟨fun a b => le_total (paKey b) (paKey a)⟩
    haveI : IsTrans Row (fun a b => paKey b ≤ paKey a) :=
      ⟨fun a b c hab hbc => le_trans hbc hab⟩
    exact List.sorted_insertionSort _ _
  exact List.Pairwise.map paKey (fun a b h => h) hsorted

/-! ## Small helpers about column restriction -/

theorem normTo_url (b d p : Bool) (r : Row) : (normTo b d p r).url = r.url := rfl

theorem map_url_map_normTo (b d p : Bool) (l : List Row) :
    (l.map (normTo b d p)).map Row.url = l.map Row.url := by
  induction l with
  | nil => rfl
  | cons r rs ih => simp only [List.map_cons, normTo_url, ih]

/-- A list with pairwise distinct url keys holds at most one null-url row. -/
theorem filter_isNone_length_le_one {l : List Row}
    (h : (l.map Row.url).Nodup) :
    (l.filter (fun r => r.url.isNone)).length ≤ 1 := by
  induction l with
  | nil => simp
  | cons r rs ih =>
    simp only [List.map_cons, List.nodup_cons] at h
    obtain ⟨h1, h2⟩ := h
    by_cases hr : r.url.isNone
    · rw [List.filter_cons, if_pos hr]
      have hnil : rs.filter (fun r => r.url.isNone) = [] := by
        rw [List.filter_eq_nil_iff]
        intro x hx hxn
        apply h1
        have hx' : x.url ∈ rs.map Row.url := List.mem_map_of_mem _ hx
        rw [Option.isNone_iff_eq_none] at hr hxn
        rw [hr, ← hxn]
        exact hx'
      rw [hnil]
      simp
    · rw [List.filter_cons, if_neg hr]
      exact ih h2

/-! ## Claim C1 -/

/-- C1: when the call to the external search API raises (network, auth,
quota — any exception), the fetch stage does not propagate it: the
`except` branch returns an empty batch. -/
theorem fetch_api_error_yields_empty_batch (e : String) (now : Nat) :
    ai_marketing_news_raw (.error e) now = [] := rfl

theorem fetch_api_error_yields_empty_batch_witness :
    ai_marketing_news_raw (.error "HTTP 429: quota exceeded") 1702800000 = [] :=
  fetch_api_error_yields_empty_batch "HTTP 429: quota exceeded" 1702800000

/-! ## Claim C7 -/

/-- C7: an empty input batch makes the deduplicator return that batch
unchanged, before the code that reads the persisted accumulated table is
reached; the stage is a pure function, so nothing is modified either. -/
theorem dedup_empty_input_short_circuit (existing : List Row) :
    processed_news_run existing [] = ⟨[], false⟩ := rfl

theorem dedup_empty_input_short_circuit_witness :
    processed_news_run [⟨some "u", some "Old", none, none, .missing, ""⟩] []
      = ⟨[], false⟩ :=
  dedup_empty_input_short_circuit [⟨some "u", some "Old", none, none, .missing, ""⟩]

/-! ## Claim C4 -/

/-- C4: the cursor resolver formats a stored datetime high-water mark as a
`YYYY-MM-DD` string; it converts the raw numeric value `1702800000.0` to
`"2023-12-17"`; and with no prior materialization (or no recorded value)
it returns exactly today minus 7 days as `YYYY-MM-DD`. It is a total
function, so missing history never raises. -/
theorem cursor_resolver_normalizes :
    (∀ days today,
        get_last_fetch_timestamp (some (.dt days)) today = formatDate days)
    ∧ (∀ today,
        get_last_fetch_timestamp (some (.fl 1702800000)) today = "2023-12-17")
    ∧ (∀ today,
        get_last_fetch_timestamp none today = formatDate (today - 7)) :=
  ⟨fun _ _ => rfl, fun _ => rfl, fun _ => rfl⟩

theorem cursor_resolver_normalizes_witness :
    get_last_fetch_timestamp none 19715 = "2023-12-17" :=
  (cursor_resolver_normalizes.2.2 19715).trans rfl

/-! ## Claim C8 -/

/-- C8: deduplicating a dataset whose url values are already unique, with
that same dataset as the persisted prior state, returns the dataset
unchanged (same rows, same order, same count). -/
theorem dedup_idempotent (ds : List Row)
    (h : (ds.map Row.url).Nodup) : processed_news ds ds = ds := by
  cases hds : ds with
  | nil => rfl
  | cons d ds' =>
    rw [← hds]
    have hne : ds.isEmpty = false := by rw [hds]; rfl
    have hself : dedupByUrl ds = ds := dedupByUrl_eq_self h
    simp only [processed_news, processed_news_run, hne, Bool.false_eq_true,
      if_false, hself]
    rw [dedupByUrl_append, hself, dedupByUrlAux_eq_nil, List.append_nil]
    intro x hx
    exact List.mem_map_of_mem Row.url hx

theorem dedup_idempotent_witness :
    processed_news
        [⟨some "u1", some "A", none, none, .ts 3, ""⟩,
         ⟨some "u2", some "B", none, none, .ts 2, ""⟩]
        [⟨some "u1", some "A", none, none, .ts 3, ""⟩,
         ⟨some "u2", some "B", none, none, .ts 2, ""⟩]
      = [⟨some "u1", some "A", none, none, .ts 3, ""⟩,
         ⟨some "u2", some "B", none, none, .ts 2, ""⟩] :=
  dedup_idempotent
    [⟨some "u1", some "A", none, none, .ts 3, ""⟩,
     ⟨some "u2", some "B", none, none, .ts 2, ""⟩] (by decide)

/-! ## Claim C9 -/

/-- C9 as stated is false on the code: `drop_duplicates` hashes NaN url
keys as equal, so two distinct null-url records collapse to the first.
Here a batch of two null-url rows with titles "A" and "B" yields one row,
not two. -/
theorem null_url_dedup_counterexample :
    processed_news []
        [⟨none, some "A", none, none, .missing, ""⟩,
         ⟨none, some "B", none, none, .missing, ""⟩]
      = [⟨none, some "A", none, none, .missing, ""⟩] := by decide

/-- C9 amended: null-url records are collapsed against each other like any
shared key (pandas treats missing keys as equal), so at most one null-url
record survives deduplication. -/
theorem null_url_at_most_one_survivor (existing batch : List Row) :
    ((processed_news existing batch).filter
      (fun r => r.url.isNone)).length ≤ 1 := by
  have hnd : ((processed_news existing batch).map Row.url).Nodup := by
    cases batch with
    | nil => simp [processed_news, processed_news_run]
    | cons b bs =>
      cases existing with
      | nil =>
        simpa [processed_news, processed_news_run] using
          nodup_urls_dedupByUrl (b :: bs)
      | cons e es =>
        simpa [processed_news, processed_news_run] using
          nodup_urls_dedupByUrl ((e :: es) ++ dedupByUrl (b :: bs))
  exact filter_isNone_length_le_one hnd

theorem null_url_at_most_one_survivor_witness :
    ((processed_news []
        [⟨none, some "A", none, none, .missing, ""⟩,
         ⟨none, some "B", none, none, .missing, ""⟩,
         ⟨none, some "C", none, none, .missing, ""⟩]).filter
      (fun r => r.url.isNone)).length ≤ 1 :=
  null_url_at_most_one_survivor []
    [⟨none, some "A", none, none, .missing, ""⟩,
     ⟨none, some "B", none, none, .missing, ""⟩,
     ⟨none, some "C", none, none, .missing, ""⟩]

/-! ## Claim C3 -/

/-- C3: first occurrence wins. For any record of the previously
accumulated set and any distinct record of the new batch sharing its url,
the accumulated record is in the output and the new one is not, whatever
their contents; and a single batch of two same-url records titled "A" then
"B" deduplicates to exactly the one row titled "A". -/
theorem dedup_first_wins :
    (∀ (existing batch : List Row) (e b : Row),
        (existing.map Row.url).Nodup → e ∈ existing → b ∈ batch →
        b.url = e.url → b ≠ e →
        e ∈ processed_news existing batch
          ∧ b ∉ processed_news existing batch)
    ∧ processed_news []
        [⟨some "u", some "A", none, none, .missing, ""⟩,
         ⟨some "u", some "B", none, none, .missing, ""⟩]
      = [⟨some "u", some "A", none, none, .missing, ""⟩] := by
  constructor
  · intro existing batch e b hnd he hb hurl hne
    have hbe : batch.isEmpty = false := by
      cases batch
      · cases hb
      · rfl
    have hee : existing.isEmpty = false := by
      cases existing
      · cases he
      · rfl
    have hout : processed_news existing batch
        = existing
          ++ dedupByUrlAux (existing.map Row.url) (dedupByUrl batch) := by
      simp only [processed_news, processed_news_run, hbe, hee,
        Bool.false_eq_true, if_false]
      rw [dedupByUrl_append, dedupByUrl_eq_self hnd]
    rw [hout]
    constructor
    · exact List.mem_append_left _ he
    · intro hmem
      rcases List.mem_append.mp hmem with h | h
      · exact hne (List.inj_on_of_nodup_map hnd h he hurl)
      · exact url_not_seen_of_mem_dedupByUrlAux h
          (hurl ▸ List.mem_map_of_mem Row.url he)
  · decide

theorem dedup_first_wins_witness :
    (⟨some "u", some "Old", some "kept body", none, .ts 1, ""⟩ : Row)
        ∈ processed_news
            [⟨some "u", some "Old", some "kept body", none, .ts 1, ""⟩]
            [⟨some "u", some "New", some "other body", none, .ts 2, ""⟩]
      ∧ (⟨some "u", some "New", some "other body", none, .ts 2, ""⟩ : Row)
        ∉ processed_news
            [⟨some "u", some "Old", some "kept body", none, .ts 1, ""⟩]
            [⟨some "u", some "New", some "other body", none, .ts 2, ""⟩] :=
  dedup_first_wins.1
    [⟨some "u", some "Old", some "kept body", none, .ts 1, ""⟩]
    [⟨some "u", some "New", some "other body", none, .ts 2, ""⟩]
    ⟨some "u", some "Old", some "kept body", none, .ts 1, ""⟩
    ⟨some "u", some "New", some "other body", none, .ts 2, ""⟩
    (by decide) (by decide) (by decide) rfl (by decide)

/-! ## Lemmas about the validity predicate -/

theorem spec_valid_eq_of_fields {hb : Bool} {r s : Row}
    (ht : s.title = r.title) (hcf : contentOf hb s = contentOf hb r)
    (hp : s.publishedAt = r.publishedAt) :
    spec_valid hb s = spec_valid hb r := by
  unfold spec_valid
  rw [ht, hcf, hp]

/-- A row that passes the content mask with the content column present and
carries a real timestamp satisfies the validity predicate of the spec. -/
theorem spec_valid_of_filterCond_ts {hb : Bool} {r : Row}
    (hcond : filterCond hb true r = true)
    (hts : (tsOf r).isSome = true) :
    spec_valid hb r = true := by
  simp only [filterCond, if_true, Bool.and_eq_true] at hcond
  obtain ⟨⟨⟨⟨⟨ht, hc⟩, hcb⟩, htr⟩, htb⟩, hcr⟩ := hcond
  cases htitle : r.title with
  | none => rw [htitle] at ht; simp at ht
  | some t =>
    cases hcontent : contentOf hb r with
    | none => rw [hcontent] at hc; simp at hc
    | some c =>
      cases hpa2 : r.publishedAt with
      | missing => simp [tsOf, hpa2] at hts
      | invalid => simp [tsOf, hpa2] at hts
      | ts tval =>
        rw [htitle] at htr htb
        rw [hcontent] at hcb hcr
        simp only [optNe, optStripNeBlank] at htr htb hcb hcr
        simp [spec_valid, htitle, hcontent, hpa2, htr, htb, hcb, hcr]

/-- Every row of the filtered new batch is valid, provided the input has
the chosen content column and a `publishedAt` column. -/
theorem spec_valid_of_mem_newBatchFiltered {input : DF}
    (hc : (input.hasBody || input.hasDescription) = true)
    (hpa : input.hasPublishedAt = true) :
    ∀ r ∈ newBatchFiltered input, spec_valid input.hasBody r = true := by
  intro r hr
  simp only [newBatchFiltered, hc, hpa, if_true] at hr
  rcases List.mem_filter.mp hr with ⟨hr1, hts⟩
  rcases List.mem_map.mp hr1 with ⟨r0, hr0, rfl⟩
  have hcond : filterCond input.hasBody true r0 = true :=
    (List.mem_filter.mp hr0).2
  exact spec_valid_of_filterCond_ts hcond hts

/-- Restricting a row to the columns of a frame that has the chosen
content column and the `publishedAt` column does not change its
validity. -/
theorem spec_valid_normTo_input {input : DF} (r : Row)
    (hc : (input.hasBody || input.hasDescription) = true) :
    spec_valid input.hasBody
        (normTo input.hasBody input.hasDescription true r)
      = spec_valid input.hasBody r := by
  apply spec_valid_eq_of_fields
  · rfl
  · cases hb : input.hasBody
    · have hd : input.hasDescription = true := by
        rw [hb] at hc
        simpa using hc
      simp [contentOf, normTo, hd]
    · simp [contentOf, normTo]
  · simp [normTo]

/-! ## Claim C2 -/

/-- C2 as stated is false on the code: when the input frame has neither a
`body` nor a `description` column, the mask degrades to `title.notna()`
alone, so a row titled `"[Removed]"` with no content and no
`published_at` reaches the output of the filter stage. -/
theorem filter_validity_counterexample :
    (⟨some "u", some "[Removed]", none, none, .missing, ""⟩ : Row)
        ∈ (filtered_news ⟨false, false, false, []⟩
            ⟨false, false, false,
              [⟨some "u", some "[Removed]", none, none, .missing, ""⟩]⟩).rows
      ∧ spec_valid false
          (⟨some "u", some "[Removed]", none, none, .missing, ""⟩ : Row)
        = false := by decide

/-- C2 amended: provided the input frame has the active content column
(`body`, or `description` when `body` is absent) and a `publishedAt`
column, and every row of the previously persisted filtered dataset (read
back with its own columns) satisfies the validity predicate, then every
row of the filter stage output satisfies it: non-null, non-blank title
and active content field, neither the `"[Removed]"` sentinel, and a
non-null `published_at`. -/
theorem filter_validity_of_content_and_date_columns
    (existing input : DF)
    (hc : (input.hasBody || input.hasDescription) = true)
    (hpa : input.hasPublishedAt = true)
    (hex : ∀ r ∈ existing.rows,
      spec_valid input.hasBody
          (normTo existing.hasBody existing.hasDescription
            existing.hasPublishedAt r)
        = true) :
    ∀ r ∈ (filtered_news existing input).rows,
      spec_valid input.hasBody r = true := by
  intro r hr
  simp only [filtered_news] at hr
  by_cases hin : input.rows.isEmpty
  · rw [List.isEmpty_iff] at hin
    simp [hin] at hr
  · simp only [Bool.not_eq_true] at hin
    simp only [hin, Bool.false_eq_true, if_false] at hr
    by_cases hee : existing.rows.isEmpty
    · simp only [hee, if_true, hpa] at hr
      exact spec_valid_of_mem_newBatchFiltered hc hpa r
        (mem_of_mem_sortRowsDesc hr)
    · simp only [Bool.not_eq_true] at hee
      simp only [hee, Bool.false_eq_true, if_false, DF.concat, hpa,
        Bool.or_true, if_true] at hr
      have hr2 := mem_of_mem_dedupByUrl (mem_of_mem_sortRowsDesc hr)
      rcases List.mem_append.mp hr2 with h | h
      · rcases List.mem_map.mp h with ⟨r0, hr0, rfl⟩
        exact hex r0 hr0
      · rcases List.mem_map.mp h with ⟨r0, hr0, rfl⟩
        rw [spec_valid_normTo_input r0 hc]
        exact spec_valid_of_mem_newBatchFiltered hc hpa r0 hr0

theorem filter_validity_witness :
    spec_valid true (⟨some "v", some "S", some "C", none, .ts 9, ""⟩ : Row)
      = true :=
  filter_validity_of_content_and_date_columns
    ⟨true, false, true, []⟩
    ⟨true, false, true, [⟨some "v", some "S", some "C", none, .ts 9, ""⟩]⟩
    rfl rfl (by intro r hr; cases hr)
    ⟨some "v", some "S", some "C", none, .ts 9, ""⟩ (by decide)

/-! ## Claim C5 -/

/-- C5: for every input and every previously persisted filtered dataset,
the `published_at` values of the filter stage output, read in row order,
are non-increasing (the final sort is descending with nulls last, and
when no `publishedAt` column exists there are no values at all). -/
theorem filter_output_sorted_desc (existing input : DF) :
    List.Sorted (fun a b : Nat => b ≤ a)
      ((filtered_news existing input).paSeq) := by
  simp only [filtered_news]
  by_cases hin : input.rows.isEmpty
  · rw [if_pos hin]
    rw [List.isEmpty_iff] at hin
    simp [DF.paSeq, hin]
  · rw [if_neg hin]
    by_cases hee : existing.rows.isEmpty
    · rw [if_pos hee]
      by_cases hpa : input.hasPublishedAt
      · simp only [DF.paSeq, hpa, if_true]
        exact sorted_filterMap_sortRowsDesc _
      · simp only [Bool.not_eq_true] at hpa
        simp [DF.paSeq, hpa]
    · rw [if_neg hee]
      by_cases hpa : (existing.hasPublishedAt || input.hasPublishedAt) = true
      · simp only [DF.concat, DF.paSeq, hpa, if_true]
        exact sorted_filterMap_sortRowsDesc _
      · simp only [Bool.not_eq_true] at hpa
        simp [DF.concat, DF.paSeq, hpa]

theorem filter_output_sorted_desc_witness :
    List.Sorted (fun a b : Nat => b ≤ a)
      ((filtered_news ⟨true, false, true, []⟩
        ⟨true, false, true,
          [⟨some "u1", some "S", some "C", none, .ts 3, ""⟩,
           ⟨some "u2", some "T", some "D", none, .ts 9, ""⟩]⟩).paSeq) :=
  filter_output_sorted_desc ⟨true, false, true, []⟩
    ⟨true, false, true,
      [⟨some "u1", some "S", some "C", none, .ts 3, ""⟩,
       ⟨some "u2", some "T", some "D", none, .ts 9, ""⟩]⟩

/-! ## Claim C6 -/

/-- C6: with a non-empty input (the stage loads nothing when the input is
empty) and a previously persisted filtered dataset with unique url keys —
which every persisted filter output has — the output row count is at
least the row count of the loaded persisted dataset: previous rows are
concatenated first and survive the url dedup, so accumulation never
shrinks the persisted filtered dataset. -/
theorem filter_row_count_monotone (existing input : DF)
    (hne : input.rows ≠ [])
    (hnd : (existing.rows.map Row.url).Nodup) :
    existing.rows.length ≤ (filtered_news existing input).rows.length := by
  have hin : input.rows.isEmpty = false := by
    rw [List.isEmpty_eq_false]
    exact hne
  simp only [filtered_news, hin, Bool.false_eq_true, if_false]
  by_cases hee : existing.rows.isEmpty
  · rw [if_pos hee]
    rw [List.isEmpty_iff] at hee
    rw [hee]
    simp
  · rw [if_neg hee]
    have key : existing.rows.length
        ≤ (dedupByUrl (existing.rows.map
              (normTo existing.hasBody existing.hasDescription
                existing.hasPublishedAt)
            ++ (newBatchFiltered input).map
              (normTo input.hasBody input.hasDescription
                input.hasPublishedAt))).length := by
      rw [dedupByUrl_append,
        dedupByUrl_eq_self (by rw [map_url_map_normTo]; exact hnd),
        List.length_append, List.length_map]
      exact Nat.le_add_right _ _
    by_cases hpa : (existing.hasPublishedAt || input.hasPublishedAt) = true
    · simp only [DF.concat, hpa, if_true, length_sortRowsDesc]
      exact key
    · simp only [Bool.not_eq_true] at hpa
      simp only [DF.concat, hpa, Bool.false_eq_true, if_false]
      exact key

theorem filter_row_count_monotone_witness :
    (⟨true, false, true,
        [⟨some "u", some "Old", some "B", none, .ts 5, ""⟩]⟩ : DF).rows.length
      ≤ (filtered_news
          ⟨true, false, true,
            [⟨some "u", some "Old", some "B", none, .ts 5, ""⟩]⟩
          ⟨true, false, true,
            [⟨some "v", some "New", some "C", none, .ts 9, ""⟩]⟩).rows.length :=
  filter_row_count_monotone
    ⟨true, false, true, [⟨some "u", some "Old", some "B", none, .ts 5, ""⟩]⟩
    ⟨true, false, true, [⟨some "v", some "New", some "C", none, .ts 9, ""⟩]⟩
    (by decide) (by decide)

/-! ## Claim C10 -/

/-- C10: when the non-empty input frame has neither a `body` nor a
`description` column, the content mask degrades to `title.notna()` alone:
with no prior persisted data and no `publishedAt` column, the output is
exactly the input rows whose title is non-null, so rows with blank or
`"[Removed]"` titles are retained. -/
theorem filter_no_content_columns_title_only
    (existing input : DF)
    (hb : input.hasBody = false) (hd : input.hasDescription = false)
    (hpa : input.hasPublishedAt = false)
    (hee : existing.rows = []) (hne : input.rows ≠ []) :
    (∀ r : Row, filterCond input.hasBody
        (input.hasBody || input.hasDescription) r = r.title.isSome)
    ∧ (filtered_news existing input).rows
        = input.rows.filter (fun r => r.title.isSome) := by
  constructor
  · intro r
    rw [hb, hd]
    rfl
  · have hin : input.rows.isEmpty = false := by
      rw [List.isEmpty_eq_false]
      exact hne
    simp only [filtered_news, hin, Bool.false_eq_true, if_false, hee,
      List.isEmpty_nil, if_true, newBatchFiltered, hb, hd, hpa,
      Bool.or_false]
    rfl

theorem filter_no_content_columns_title_only_witness :
    (filtered_news ⟨false, false, false, []⟩
        ⟨false, false, false,
          [⟨some "u1", some "  ", none, none, .missing, ""⟩,
           ⟨some "u2", some "[Removed]", none, none, .missing, ""⟩,
           ⟨some "u3", none, none, none, .missing, ""⟩]⟩).rows
      = [⟨some "u1", some "  ", none, none, .missing, ""⟩,
         ⟨some "u2", some "[Removed]", none, none, .missing, ""⟩] := by
  rw [(filter_no_content_columns_title_only ⟨false, false, false, []⟩
    ⟨false, false, false,
      [⟨some "u1", some "  ", none, none, .missing, ""⟩,
       ⟨some "u2", some "[Removed]", none, none, .missing, ""⟩,
       ⟨some "u3", none, none, none, .missing, ""⟩]⟩
    rfl rfl rfl rfl (by decide)).2]
  decide

end NewsPipeline
